import Mathlib

/-!
The method recorder of otelsql (`recorder.go`).

A shallow embedding of `methodRecorderImpl.Record`, of the closure it returns
and of `recordNoQuery`, followed by the properties of the recorder.

Modelling conventions.

* Go slices of `attribute.KeyValue` are triples (backing array, length,
  capacity) over an explicit heap of backing arrays, so that `make` and the
  in-place / reallocating behaviour of `append` are visible.
* Variadic parameters (`labels ...attribute.KeyValue`) are only ever read by
  the code; they are passed as the list of values they hold at the call.
* The two metric sinks are external function values.  A call to a sink is an
  event appended to the world's log of sink calls.  The log keeps the attribute
  list handed to `metric.WithAttributes(attrs...)`; the attribute set that the
  library builds from that list and gives to the sink is `SinkCall.attributeSet`.
* `time.Now()` is an input: every operation that reads the clock takes the
  reading as an argument.
-/

namespace otelsql

/-! ## Attributes (`go.opentelemetry.io/otel/attribute`) -/

/-- The type `attribute.Key`, a string. -/
abbrev Key := String

/-- The type `attribute.Value`: a tagged value.  A float64 is kept as its bit pattern. -/
inductive Value where
  | INVALID
  | BOOL (b : Bool)
  | INT64 (i : Int)
  | FLOAT64 (bits : Nat)
  | STRING (s : String)
  | BOOLSLICE (bs : List Bool)
  | INT64SLICE (is : List Int)
  | FLOAT64SLICE (bits : List Nat)
  | STRINGSLICE (ss : List String)
  deriving DecidableEq, Repr

/-- The type `attribute.KeyValue`. -/
structure KeyValue where
  key : Key
  value : Value
  deriving DecidableEq, Repr

/-- The method `attribute.Key.String`: a string-valued attribute under key `k`. -/
def Key.String (k : Key) (v : String) : KeyValue := ⟨k, Value.STRING v⟩

/-- The zero value of `attribute.KeyValue`, which fills freshly made arrays. -/
def KeyValue.zero : KeyValue := ⟨"", Value.INVALID⟩

/-- The constant `semconv.DBOperationKey` of semconv v1.20.0. -/
def DBOperationKey : Key := "db.operation"

/-- Modelled from the spec: the package-level declarations `dbSQLStatusOK`,
`dbSQLStatusERROR` and `dbSQLError` used by the closer are not in `recorder.go`.
The spec describes them as one reserved status key with the two values OK and
ERROR ("status = OK", "status = ERROR") and one reserved key for the error
text ("error = err.Message()").  The two key names are left open. -/
structure Vocabulary where
  dbSQLStatus : Key
  dbSQLError : Key
  deriving DecidableEq, Repr

/-- The attribute "status = OK". -/
def Vocabulary.dbSQLStatusOK (v : Vocabulary) : KeyValue := Key.String v.dbSQLStatus "OK"

/-- The attribute "status = ERROR". -/
def Vocabulary.dbSQLStatusERROR (v : Vocabulary) : KeyValue := Key.String v.dbSQLStatus "ERROR"

/-! ## Slices and the heap of backing arrays -/

/-- A slice header: the backing array it points into, the offset of its first
element in that array, its length and its capacity. -/
structure Slice where
  array : Nat
  off : Nat
  len : Nat
  cap : Nat
  deriving DecidableEq, Repr

/-- The heap: the backing arrays allocated so far, indexed by allocation order. -/
abbrev Heap := List (List KeyValue)

/-- The nil slice: length 0, capacity 0, no element. -/
def Slice.nil : Slice := ⟨0, 0, 0, 0⟩

/-- The cells of backing array `i` (no cell when `i` is not allocated). -/
def Heap.cells (h : Heap) (i : Nat) : List KeyValue := (h[i]?).getD []

/-- The elements of slice `s` in heap `h`: what `s...` passes to a variadic callee. -/
def Heap.load (h : Heap) (s : Slice) : List KeyValue :=
  ((h.cells s.array).drop s.off).take s.len

/-- A slice header is well formed in `h`: its array is allocated and holds
`off + cap` cells, and `len ≤ cap`. -/
def Slice.valid (h : Heap) (s : Slice) : Prop :=
  s.array < h.length ∧ s.len ≤ s.cap ∧ s.off + s.cap ≤ (h.cells s.array).length

instance (h : Heap) (s : Slice) : Decidable (s.valid h) := by
  unfold Slice.valid; exact inferInstance

/-- The builtin `make([]attribute.KeyValue, len, cap)`: a fresh array of `cap`
zero values and a slice of its first `len` cells. -/
def make (h : Heap) (len cap : Nat) : Slice × Heap :=
  (⟨h.length, 0, len, cap⟩, h ++ [List.replicate cap KeyValue.zero])

/-- Overwriting the cells of an array from position `i` on with `xs`. -/
def store (a : List KeyValue) (i : Nat) (xs : List KeyValue) : List KeyValue :=
  a.take i ++ xs ++ a.drop (i + xs.length)

/-- The capacity of the array `append` allocates when `needed` elements do not
fit in `oldCap`.  The language only promises an array that is large enough; the
runtime doubles small arrays. -/
def growslice (oldCap needed : Nat) : Nat := max needed (2 * oldCap)

/-- The builtin `append(s, xs...)`.  When the elements fit in the capacity of
`s` they are written in place after its last element; otherwise a new array is
allocated, the elements of `s` are copied to it and `xs` follows. -/
def append (h : Heap) (s : Slice) (xs : List KeyValue) : Slice × Heap :=
  if s.len + xs.length ≤ s.cap then
    ({ s with len := s.len + xs.length },
      h.set s.array (store (h.cells s.array) (s.off + s.len) xs))
  else
    let newcap := growslice s.cap (s.len + xs.length)
    (⟨h.length, 0, s.len + xs.length, newcap⟩,
      h ++ [h.load s ++ xs ++ List.replicate (newcap - (s.len + xs.length)) KeyValue.zero])

/-! ## The world: heap and sink calls -/

/-- The type `context.Context`, reduced to an identity and its cancellation state. -/
structure Context where
  id : Nat
  cancelled : Bool
  deriving DecidableEq, Repr

/-- A reading of the monotonic clock, in nanoseconds. -/
abbrev Time := Int

/-- A non-nil value of the interface type `error`, seen through its method `Error()`. -/
structure GoError where
  Error : String
  deriving DecidableEq, Repr

/-- The type `float64Recorder`: the identity of an external histogram sink. -/
abbrev float64Recorder := Nat

/-- The type `int64Counter`: the identity of an external counter sink. -/
abbrev int64Counter := Nat

/-- One call to a sink, with the arguments it received. -/
inductive SinkCall where
  | add (f : int64Counter) (ctx : Context) (value : Int) (attrs : List KeyValue)
  | record (f : float64Recorder) (ctx : Context) (value : ℚ) (attrs : List KeyValue)
  deriving DecidableEq

/-- The attribute list a sink call carries. -/
def SinkCall.attrs : SinkCall → List KeyValue
  | .add _ _ _ a => a
  | .record _ _ _ a => a

/-- The order `attribute.NewSet` sorts by: the keys, compared as strings,
character by character. -/
def KeyValue.keyLE (a b : KeyValue) : Prop := a.key.data ≤ b.key.data

instance : DecidableRel KeyValue.keyLE := fun a b => by
  unfold KeyValue.keyLE; exact inferInstance

/-- De-duplication with last-value-wins semantics: an attribute is dropped when
a later attribute of the list has the same key. -/
def lastWins : List KeyValue → List KeyValue
  | [] => []
  | a :: l => if l.any (fun b => decide (b.key = a.key)) then lastWins l else a :: lastWins l

/-- The library function `attribute.NewSet`: duplicate keys are eliminated by
taking the last value, and the attributes are sorted by key.  The library
sorts stably and then drops the overwritten values; the result is the list
below, the last attribute of every key in key order. -/
def NewSet (kvs : List KeyValue) : List KeyValue :=
  (lastWins kvs).insertionSort KeyValue.keyLE

/-- The attribute set a sink receives with a call: the library function
`metric.WithAttributes` copies its arguments and builds `attribute.NewSet` of
the copy. -/
def SinkCall.attributeSet (sc : SinkCall) : List KeyValue := NewSet sc.attrs

/-- The state the recorder acts on: the heap and the log of sink calls. -/
structure World where
  heap : Heap
  calls : List SinkCall

/-- Calling a counter sink `f(ctx, value, metric.WithAttributes(attrs...))`. -/
def World.callCounter (w : World) (f : int64Counter) (ctx : Context) (value : Int)
    (attrs : Slice) : World :=
  { w with calls := w.calls ++ [SinkCall.add f ctx value (w.heap.load attrs)] }

/-- Calling a histogram sink `f(ctx, value, metric.WithAttributes(attrs...))`. -/
def World.callRecorder (w : World) (f : float64Recorder) (ctx : Context) (value : ℚ)
    (attrs : Slice) : World :=
  { w with calls := w.calls ++ [SinkCall.record f ctx value (w.heap.load attrs)] }

/-- Modelled from the spec: `millisecondsSince` is declared elsewhere in the
package.  The spec: "elapsed duration = now − start, using a monotonic clock
[...] reported in milliseconds".  The float64 result is kept as the exact
quotient; `now` is the clock reading at the call. -/
def millisecondsSince (startTime now : Time) : ℚ := ((now - startTime : Int) : ℚ) / 1000000

/-! ## `recorder.go` -/

/-- The struct `methodRecorderImpl`. -/
structure methodRecorderImpl where
  recordLatency : float64Recorder
  countCalls : int64Counter
  attributes : Slice
  deriving DecidableEq, Repr

/-- The function value returned by `Record`, with the variables it captures:
the receiver `r`, `ctx`, `startTime` and the variable `attrs`, which the body
assigns to. -/
structure closer where
  r : methodRecorderImpl
  ctx : Context
  startTime : Time
  attrs : Slice
  deriving DecidableEq, Repr

/-- The function `newMethodRecorder`. -/
def newMethodRecorder (latencyRecorder : float64Recorder) (callsCounter : int64Counter)
    (attrs : Slice) : methodRecorderImpl :=
  { recordLatency := latencyRecorder, countCalls := callsCounter, attributes := attrs }

/-- The method `methodRecorderImpl.Record`; `now` is the reading of `time.Now()`. -/
def methodRecorderImpl.Record (r : methodRecorderImpl) (ctx : Context) (method : String)
    (labels : List KeyValue) (now : Time) (w : World) : closer × World :=
  let startTime := now
  let a0 := make w.heap 0 (r.attributes.len + labels.length + 2)
  let a1 := append a0.2 a0.1 (a0.2.load r.attributes)
  let a2 := append a1.2 a1.1 labels
  let a3 := append a2.2 a2.1 [Key.String DBOperationKey method]
  ({ r := r, ctx := ctx, startTime := startTime, attrs := a3.1 }, { w with heap := a3.2 })

/-- Invoking the function value returned by `Record`; `now` is the clock
reading taken by `millisecondsSince`.  The first component is the closure
afterwards (its variable `attrs` has been assigned). -/
def closer.call (v : Vocabulary) (c : closer) (err : Option GoError) (labels : List KeyValue)
    (now : Time) (w : World) : closer × World :=
  let elapsedTime := millisecondsSince c.startTime now
  let a :=
    match err with
    | none =>
      let a1 := append w.heap c.attrs labels
      append a1.2 a1.1 [v.dbSQLStatusOK]
    | some e =>
      let a1 := append w.heap c.attrs labels
      append a1.2 a1.1 [v.dbSQLStatusERROR, Key.String v.dbSQLError e.Error]
  let w1 : World := { w with heap := a.2 }
  let w2 := w1.callCounter c.r.countCalls c.ctx 1 a.1
  let w3 := w2.callRecorder c.r.recordLatency c.ctx elapsedTime a.1
  ({ c with attrs := a.1 }, w3)

/-- The type `driver.Value`. -/
inductive DriverValue where
  | null
  | int64 (i : Int)
  | float64 (bits : Nat)
  | bool (b : Bool)
  | bytes (b : List Nat)
  | string (s : String)
  | time (t : Time)
  deriving DecidableEq, Repr

/-- The struct `driver.NamedValue`. -/
structure NamedValue where
  Name : String
  Ordinal : Int
  Value : DriverValue
  deriving DecidableEq, Repr

/-- The function `recordNoQuery`: it returns nil. -/
def recordNoQuery (_ctx : Context) (_query : String) (_args : List NamedValue) : Slice :=
  Slice.nil

/-- The attributes the closer appends after the extra labels: the `err == nil`
branch and the `else` branch of the function value returned by `Record`. -/
def closer.outcome (v : Vocabulary) : Option GoError → List KeyValue
  | none => [v.dbSQLStatusOK]
  | some e => [v.dbSQLStatusERROR, Key.String v.dbSQLError e.Error]

/-- The heaps `h` and `h1` hold the same backing array at index `i`. -/
def Heap.sameArray (h h1 : Heap) (i : Nat) : Prop := h1[i]? = h[i]?

instance (h h1 : Heap) (i : Nat) : Decidable (h.sameArray h1 i) := by
  unfold Heap.sameArray; exact inferInstance

/-- The number of attributes of `l` under the status key. -/
def statusTags (v : Vocabulary) (l : List KeyValue) : Nat :=
  l.countP (fun a => decide (a.key = v.dbSQLStatus))

/-! ## Callers: one measurement, and two measurements on one recorder -/

/-- The inputs of one measurement: the arguments of `Record`, the arguments
given to the closer, and the clock readings at the two calls. -/
structure Measurement where
  ctx : Context
  method : String
  labels : List KeyValue
  opened : Time
  err : Option GoError
  extra : List KeyValue
  closed : Time
  deriving DecidableEq, Repr

/-- A caller that opens one measurement and closes it. -/
def measureAlone (v : Vocabulary) (r : methodRecorderImpl) (m : Measurement) (w : World) :
    World :=
  let o := r.Record m.ctx m.method m.labels m.opened w
  (o.1.call v m.err m.extra m.closed o.2).2

/-- A caller that opens `m1`, opens `m2`, closes `m1`, then closes `m2`. -/
def measureBothInOrder (v : Vocabulary) (r : methodRecorderImpl) (m1 m2 : Measurement)
    (w : World) : World :=
  let o1 := r.Record m1.ctx m1.method m1.labels m1.opened w
  let o2 := r.Record m2.ctx m2.method m2.labels m2.opened o1.2
  let p := o1.1.call v m1.err m1.extra m1.closed o2.2
  (o2.1.call v m2.err m2.extra m2.closed p.2).2

/-- A caller that opens `m1`, opens `m2`, closes `m2`, then closes `m1`. -/
def measureBothReversed (v : Vocabulary) (r : methodRecorderImpl) (m1 m2 : Measurement)
    (w : World) : World :=
  let o1 := r.Record m1.ctx m1.method m1.labels m1.opened w
  let o2 := r.Record m2.ctx m2.method m2.labels m2.opened o1.2
  let p := o2.1.call v m2.err m2.extra m2.closed o2.2
  (o1.1.call v m1.err m1.extra m1.closed p.2).2

/-- A caller that opens and closes `m1`, then opens and closes `m2`. -/
def measureInSequence (v : Vocabulary) (r : methodRecorderImpl) (m1 m2 : Measurement)
    (w : World) : World :=
  let o1 := r.Record m1.ctx m1.method m1.labels m1.opened w
  let p := o1.1.call v m1.err m1.extra m1.closed o1.2
  let o2 := r.Record m2.ctx m2.method m2.labels m2.opened p.2
  (o2.1.call v m2.err m2.extra m2.closed o2.2).2

/-- Spec side: the final attribute list the spec gives for measurement `m` on a
recorder with base attributes `B` (base, labels, operation name, extra labels,
outcome).  It is what the theorems compare the sink calls of the code with. -/
def Measurement.specAttrs (v : Vocabulary) (B : List KeyValue) (m : Measurement) : List KeyValue :=
  B ++ m.labels ++ [Key.String DBOperationKey m.method] ++ m.extra ++ closer.outcome v m.err

/-- Spec side: the two sink calls the spec gives for measurement `m` on recorder
`r` with base attributes `B`: one count of 1, then one duration, same attributes. -/
def Measurement.specCalls (v : Vocabulary) (r : methodRecorderImpl) (B : List KeyValue)
    (m : Measurement) : List SinkCall :=
  [SinkCall.add r.countCalls m.ctx 1 (m.specAttrs v B),
    SinkCall.record r.recordLatency m.ctx (millisecondsSince m.opened m.closed) (m.specAttrs v B)]

/-! ## A concrete scenario

The example of the spec: a recorder whose base attribute is `dbSystem=postgres`,
opened for the operation "Query". -/

/-- A vocabulary with the key names of the upstream package. -/
def sampleVocabulary : Vocabulary := { dbSQLStatus := "db.sql.status", dbSQLError := "db.sql.error" }

/-- A heap whose only array holds the base attribute `dbSystem=postgres`. -/
def sampleWorld : World := { heap := [[Key.String "dbSystem" "postgres"]], calls := [] }

/-- A recorder over the base slice of `sampleWorld`. -/
def sampleRecorder : methodRecorderImpl := newMethodRecorder 1 2 ⟨0, 0, 1, 1⟩

/-- A recorder without base attributes (its base slice is nil), for the empty heap. -/
def bareRecorder : methodRecorderImpl := newMethodRecorder 1 2 Slice.nil

/-- A live context. -/
def sampleContext : Context := { id := 7, cancelled := false }

/-- The measurement of the spec's example that succeeds. -/
def sampleQueryOK : Measurement :=
  { ctx := sampleContext, method := "Query", labels := [Key.String "table" "users"],
    opened := 0, err := none, extra := [], closed := 5 }

/-- The measurement of the spec's example that fails with "connection reset". -/
def sampleQueryFailed : Measurement :=
  { ctx := sampleContext, method := "Query", labels := [], opened := 2,
    err := some ⟨"connection reset"⟩, extra := [Key.String "attempt" "2"], closed := 9 }

/-! ## Backing arrays: reading after `make` and `append` -/

theorem cells_append_left (h : Heap) (a : List KeyValue) (i : Nat) (hi : i < h.length) :
    Heap.cells (h ++ [a]) i = h.cells i := by
  simp [Heap.cells, List.getElem?_append_left hi]

theorem cells_append_length (h : Heap) (a : List KeyValue) :
    Heap.cells (h ++ [a]) h.length = a := by
  simp [Heap.cells]

theorem cells_set_self (h : Heap) (a : List KeyValue) (i : Nat) (hi : i < h.length) :
    Heap.cells (h.set i a) i = a := by
  simp [Heap.cells, List.getElem?_set_self hi]

theorem cells_set_ne (h : Heap) (a : List KeyValue) (i j : Nat) (hne : i ≠ j) :
    Heap.cells (h.set i a) j = h.cells j := by
  simp [Heap.cells, List.getElem?_set_ne hne]

theorem length_store (a : List KeyValue) (i : Nat) (xs : List KeyValue)
    (hfit : i + xs.length ≤ a.length) : (store a i xs).length = a.length := by
  simp [store]; omega

theorem load_store (a : List KeyValue) (off len : Nat) (xs : List KeyValue)
    (hfit : off + len ≤ a.length) :
    ((store a (off + len) xs).drop off).take (len + xs.length)
      = (a.drop off).take len ++ xs := by
  have h2 : off ≤ (a.take (off + len)).length := by simp; omega
  have h3 : ((a.drop off).take len ++ xs).length = len + xs.length := by simp; omega
  unfold store
  rw [List.append_assoc, List.drop_append_of_le_length h2, List.drop_take,
    Nat.add_sub_cancel_left, ← List.append_assoc]
  exact List.take_left' h3

theorem load_make (h : Heap) (cap : Nat) : (make h 0 cap).2.load (make h 0 cap).1 = [] := by
  simp [make, Heap.load]

theorem valid_make (h : Heap) (cap : Nat) : (make h 0 cap).1.valid (make h 0 cap).2 := by
  simp [make, Slice.valid, cells_append_length]

theorem sameArray_make (h : Heap) (len cap i : Nat) (hi : i < h.length) :
    (make h len cap).2[i]? = h[i]? := by
  simp [make, List.getElem?_append_left hi]

/-- A slice that is well formed in `h` is well formed, with the same elements,
in every heap that holds the same backing array. -/
theorem valid_of_sameArray (h h1 : Heap) (s : Slice) (hv : s.valid h)
    (hs : h.sameArray h1 s.array) : s.valid h1 ∧ h1.load s = h.load s := by
  obtain ⟨ha, hl, hc⟩ := hv
  have hc1 : h1.cells s.array = h.cells s.array := by
    unfold Heap.cells; rw [hs]
  have ha1 : s.array < h1.length := by
    by_contra hcon
    have h0 : h1[s.array]? = none := List.getElem?_eq_none (by omega)
    have h2 : h[s.array]? = some (h[s.array]) := List.getElem?_eq_getElem ha
    unfold Heap.sameArray at hs
    rw [h0, h2] at hs
    exact absurd hs (by simp)
  exact ⟨⟨ha1, hl, by rw [hc1]; exact hc⟩, by unfold Heap.load; rw [hc1]⟩

/-- The elements of a slice are those of its array: heaps that agree on the
array agree on the slice. -/
theorem load_congr (h h1 : Heap) (s : Slice) (hs : h1[s.array]? = h[s.array]?) :
    h1.load s = h.load s := by
  unfold Heap.load Heap.cells; rw [hs]

/-- The builtin `append` on a well-formed slice: the result is well formed and
holds the old elements followed by the new ones; the heap only grows; the
result lives in the array of `s` or in a fresh one; no other array changes. -/
theorem append_spec (h : Heap) (s : Slice) (xs : List KeyValue) (hv : s.valid h) :
    (append h s xs).1.valid (append h s xs).2 ∧
    (append h s xs).2.load (append h s xs).1 = h.load s ++ xs ∧
    (append h s xs).1.len = s.len + xs.length ∧
    h.length ≤ (append h s xs).2.length ∧
    ((append h s xs).1.array = s.array ∨ h.length ≤ (append h s xs).1.array) ∧
    (∀ i, i < h.length → i ≠ s.array → (append h s xs).2[i]? = h[i]?) := by
  obtain ⟨ha, hl, hc⟩ := hv
  unfold append
  by_cases hfit : s.len + xs.length ≤ s.cap
  · rw [if_pos hfit]
    dsimp only
    have hst : (store (h.cells s.array) (s.off + s.len) xs).length = (h.cells s.array).length :=
      length_store _ _ _ (by omega)
    refine ⟨⟨by simpa using ha, hfit, ?_⟩, ?_, rfl, by simp, Or.inl rfl, ?_⟩
    · rw [cells_set_self h _ _ ha, hst]; exact hc
    · unfold Heap.load
      dsimp only
      rw [cells_set_self h _ _ ha]
      exact load_store (h.cells s.array) s.off s.len xs (by omega)
    · intro i _ hne
      exact List.getElem?_set_ne (Ne.symm hne)
  · rw [if_neg hfit]
    dsimp only
    refine ⟨⟨by simp, ?_, ?_⟩, ?_, rfl, by simp, Or.inr (Nat.le_refl _), ?_⟩
    · simp [growslice]
    · have hlen : (h.load s).length = s.len := by
        simp [Heap.load]; omega
      rw [cells_append_length]
      simp [hlen, growslice]
      omega
    · have hlen : (h.load s).length = s.len := by
        simp [Heap.load]; omega
      simp only [Heap.load, cells_append_length, List.drop_zero]
      have h3 : (List.take s.len (List.drop s.off (h.cells s.array)) ++ xs).length
          = s.len + xs.length := by
        simp; simp [Heap.load] at hlen; omega
      exact List.take_left' h3
    · intro i hi _
      exact List.getElem?_append_left hi

/-- An `append` whose elements fit in the capacity stays in the same array,
keeps the capacity and allocates nothing. -/
theorem append_fits (h : Heap) (s : Slice) (xs : List KeyValue)
    (hfit : s.len + xs.length ≤ s.cap) :
    (append h s xs).1 = { s with len := s.len + xs.length } ∧
    (append h s xs).2.length = h.length := by
  simp [append, hfit]

theorem length_load_le (h : Heap) (s : Slice) : (h.load s).length ≤ s.len := by
  simp [Heap.load]

theorem length_load (h : Heap) (s : Slice) (hv : s.valid h) : (h.load s).length = s.len := by
  obtain ⟨_, hl, hc⟩ := hv
  simp [Heap.load]; omega

/-! ## `Record` and the closer: what they leave in the heap -/

/-- The buffer built by `Record`: a fresh array, allocated at the end of the
heap, holding the base attributes, the labels and the operation name; the
arrays that existed before are untouched and no sink is called. -/
theorem Record_spec (r : methodRecorderImpl) (ctx : Context) (method : String)
    (labels : List KeyValue) (now : Time) (w : World) (hv : r.attributes.valid w.heap) :
    (r.Record ctx method labels now w).1.attrs.valid (r.Record ctx method labels now w).2.heap ∧
    (r.Record ctx method labels now w).2.heap.load (r.Record ctx method labels now w).1.attrs
      = w.heap.load r.attributes ++ labels ++ [Key.String DBOperationKey method] ∧
    (r.Record ctx method labels now w).1.attrs.array = w.heap.length ∧
    (r.Record ctx method labels now w).2.heap.length = w.heap.length + 1 ∧
    (∀ i, i < w.heap.length → (r.Record ctx method labels now w).2.heap[i]? = w.heap[i]?) := by
  have hB : (make w.heap 0 (r.attributes.len + labels.length + 2)).2.load r.attributes
      = w.heap.load r.attributes :=
    load_congr _ _ _ (sameArray_make _ _ _ _ hv.1)
  have hBlen : (w.heap.load r.attributes).length = r.attributes.len := length_load _ _ hv
  have hm := valid_make w.heap (r.attributes.len + labels.length + 2)
  have hml := load_make w.heap (r.attributes.len + labels.length + 2)
  have hmlen : (make w.heap 0 (r.attributes.len + labels.length + 2)).2.length
      = w.heap.length + 1 := by simp [make]
  have hmarr : (make w.heap 0 (r.attributes.len + labels.length + 2)).1
      = ⟨w.heap.length, 0, 0, r.attributes.len + labels.length + 2⟩ := rfl
  have hmfr : ∀ i, i < w.heap.length →
      (make w.heap 0 (r.attributes.len + labels.length + 2)).2[i]? = w.heap[i]? :=
    fun i hi => sameArray_make _ _ _ _ hi
  unfold methodRecorderImpl.Record
  dsimp only
  generalize make w.heap 0 (r.attributes.len + labels.length + 2) = a0
    at hB hm hml hmlen hmarr hmfr ⊢
  have h1 := append_spec a0.2 a0.1 (a0.2.load r.attributes) hm
  have f1 := append_fits a0.2 a0.1 (a0.2.load r.attributes)
    (by rw [hB, hBlen, hmarr]; dsimp only; omega)
  generalize append a0.2 a0.1 (a0.2.load r.attributes) = a1 at h1 f1 ⊢
  have h2 := append_spec a1.2 a1.1 labels h1.1
  have f2 := append_fits a1.2 a1.1 labels
    (by rw [f1.1, hB, hBlen, hmarr]; dsimp only; omega)
  generalize append a1.2 a1.1 labels = a2 at h2 f2 ⊢
  have h3 := append_spec a2.2 a2.1 [Key.String DBOperationKey method] h2.1
  have f3 := append_fits a2.2 a2.1 [Key.String DBOperationKey method]
    (by rw [f2.1, f1.1, hB, hBlen, hmarr]; simp)
  generalize append a2.2 a2.1 [Key.String DBOperationKey method] = a3 at h3 f3 ⊢
  have harr1 : a1.1.array = w.heap.length := by rw [f1.1, hmarr]
  have harr2 : a2.1.array = w.heap.length := by rw [f2.1]; exact harr1
  have harr3 : a3.1.array = w.heap.length := by rw [f3.1]; exact harr2
  refine ⟨h3.1, ?_, harr3, by rw [f3.2, f2.2, f1.2, hmlen], ?_⟩
  · rw [h3.2.1, h2.2.1, h1.2.1, hml, hB]; simp
  · intro i hi
    have e0 : a0.1.array = w.heap.length := by rw [hmarr]
    rw [h3.2.2.2.2.2 i (by omega) (by omega), h2.2.2.2.2.2 i (by omega) (by omega),
      h1.2.2.2.2.2 i (by omega) (by omega)]
    exact hmfr i hi

/-- The sink calls of the closer, whatever the heap: the counter with delta 1,
then the histogram with the elapsed time, each with the elements of the
closure's buffer as it stands after the two appends. -/
theorem closer_calls (v : Vocabulary) (c : closer) (err : Option GoError)
    (labels : List KeyValue) (now : Time) (w : World) :
    (c.call v err labels now w).2.calls = w.calls ++
      [SinkCall.add c.r.countCalls c.ctx 1
          ((c.call v err labels now w).2.heap.load (c.call v err labels now w).1.attrs),
        SinkCall.record c.r.recordLatency c.ctx (millisecondsSince c.startTime now)
          ((c.call v err labels now w).2.heap.load (c.call v err labels now w).1.attrs)] := by
  cases err <;> simp [closer.call, World.callCounter, World.callRecorder]

/-- One invocation of the closer on a well-formed buffer: the buffer stays well
formed and gains the extra labels and the outcome attributes; the heap only
grows; the buffer stays in its array or moves to a fresh one; no other array
changes; the captured receiver, context and start time are kept. -/
theorem closer_spec (v : Vocabulary) (c : closer) (err : Option GoError)
    (labels : List KeyValue) (now : Time) (w : World) (hv : c.attrs.valid w.heap) :
    (c.call v err labels now w).1.attrs.valid (c.call v err labels now w).2.heap ∧
    (c.call v err labels now w).2.heap.load (c.call v err labels now w).1.attrs
      = w.heap.load c.attrs ++ labels ++ closer.outcome v err ∧
    w.heap.length ≤ (c.call v err labels now w).2.heap.length ∧
    ((c.call v err labels now w).1.attrs.array = c.attrs.array ∨
      w.heap.length ≤ (c.call v err labels now w).1.attrs.array) ∧
    (∀ i, i < w.heap.length → i ≠ c.attrs.array →
      (c.call v err labels now w).2.heap[i]? = w.heap[i]?) ∧
    (c.call v err labels now w).1.r = c.r ∧
    (c.call v err labels now w).1.ctx = c.ctx ∧
    (c.call v err labels now w).1.startTime = c.startTime := by
  have key : ∀ ys : List KeyValue,
      (append (append w.heap c.attrs labels).2 (append w.heap c.attrs labels).1 ys).1.valid
        (append (append w.heap c.attrs labels).2 (append w.heap c.attrs labels).1 ys).2 ∧
      (append (append w.heap c.attrs labels).2 (append w.heap c.attrs labels).1 ys).2.load
        (append (append w.heap c.attrs labels).2 (append w.heap c.attrs labels).1 ys).1
        = w.heap.load c.attrs ++ labels ++ ys ∧
      w.heap.length ≤
        (append (append w.heap c.attrs labels).2 (append w.heap c.attrs labels).1 ys).2.length ∧
      ((append (append w.heap c.attrs labels).2 (append w.heap c.attrs labels).1 ys).1.array
          = c.attrs.array ∨
        w.heap.length ≤
          (append (append w.heap c.attrs labels).2 (append w.heap c.attrs labels).1 ys).1.array) ∧
      (∀ i, i < w.heap.length → i ≠ c.attrs.array →
        (append (append w.heap c.attrs labels).2 (append w.heap c.attrs labels).1 ys).2[i]?
          = w.heap[i]?) := by
    intro ys
    have h1 := append_spec w.heap c.attrs labels hv
    generalize append w.heap c.attrs labels = a1 at h1 ⊢
    obtain ⟨v1, l1, _, g1, d1, fr1⟩ := h1
    have h2 := append_spec a1.2 a1.1 ys v1
    generalize append a1.2 a1.1 ys = a2 at h2 ⊢
    obtain ⟨v2, l2, _, g2, d2, fr2⟩ := h2
    refine ⟨v2, by rw [l2, l1], by omega, ?_, ?_⟩
    · rcases d2 with e2 | e2
      · rcases d1 with e1 | e1
        · exact Or.inl (e2.trans e1)
        · exact Or.inr (by omega)
      · exact Or.inr (by omega)
    · intro i hi hne
      have hne1 : i ≠ a1.1.array := by
        rcases d1 with e1 | e1 <;> omega
      rw [fr2 i (by omega) hne1, fr1 i hi hne]
  cases err with
  | none => exact ⟨(key _).1, (key _).2.1, (key _).2.2.1, (key _).2.2.2.1, (key _).2.2.2.2,
      rfl, rfl, rfl⟩
  | some e => exact ⟨(key _).1, (key _).2.1, (key _).2.2.1, (key _).2.2.2.1, (key _).2.2.2.2,
      rfl, rfl, rfl⟩

/-! ## The claims -/

/-- C1: for every recorder whose base slice holds B, every context, operation
name N (the empty string included), label list L and extra-label list X,
opening with `Record(ctx, N, L...)` and invoking the returned closer once with
a nil error and X passes to the counter sink and to the histogram sink exactly
B ++ L ++ [operation=N] ++ X ++ [status=OK]; so operation=N, status=OK and every
attribute of L are present, and every attribute under the error key comes from
the caller.  The closer may run in any later world that left its buffer alone. -/
theorem Record_close_nil_attrs (v : Vocabulary) (r : methodRecorderImpl) (ctx : Context)
    (N : String) (L X : List KeyValue) (t0 t1 : Time) (w w1 : World)
    (hbase : r.attributes.valid w.heap)
    (hown : (r.Record ctx N L t0 w).2.heap.sameArray w1.heap
      (r.Record ctx N L t0 w).1.attrs.array) :
    ((r.Record ctx N L t0 w).1.call v none X t1 w1).2.calls = w1.calls ++
      [SinkCall.add r.countCalls ctx 1
          (w.heap.load r.attributes ++ L ++ [Key.String DBOperationKey N] ++ X
            ++ [v.dbSQLStatusOK]),
        SinkCall.record r.recordLatency ctx (millisecondsSince t0 t1)
          (w.heap.load r.attributes ++ L ++ [Key.String DBOperationKey N] ++ X
            ++ [v.dbSQLStatusOK])] ∧
    Key.String DBOperationKey N ∈
      w.heap.load r.attributes ++ L ++ [Key.String DBOperationKey N] ++ X ++ [v.dbSQLStatusOK] ∧
    v.dbSQLStatusOK ∈
      w.heap.load r.attributes ++ L ++ [Key.String DBOperationKey N] ++ X ++ [v.dbSQLStatusOK] ∧
    (∀ a ∈ L, a ∈
      w.heap.load r.attributes ++ L ++ [Key.String DBOperationKey N] ++ X ++ [v.dbSQLStatusOK]) ∧
    (v.dbSQLError ≠ DBOperationKey → v.dbSQLError ≠ v.dbSQLStatus →
      ∀ a ∈ w.heap.load r.attributes ++ L ++ [Key.String DBOperationKey N] ++ X
          ++ [v.dbSQLStatusOK],
        a.key = v.dbSQLError → a ∈ w.heap.load r.attributes ++ L ++ X) := by
  obtain ⟨hval, hload, _, _, _⟩ := Record_spec r ctx N L t0 w hbase
  obtain ⟨hval1, hload1⟩ := valid_of_sameArray _ _ _ hval hown
  obtain ⟨_, hfin, _⟩ := closer_spec v (r.Record ctx N L t0 w).1 none X t1 w1 hval1
  refine ⟨?_, by simp, by simp, fun a ha => by simp [ha], ?_⟩
  · rw [closer_calls, hfin, hload1, hload]
    rfl
  · intro h1 h2 a ha hk
    simp only [List.mem_append, List.mem_singleton] at ha ⊢
    rcases ha with (((ha | ha) | ha) | ha) | ha
    · exact Or.inl (Or.inl ha)
    · exact Or.inl (Or.inr ha)
    · subst ha; exact absurd hk.symm h1
    · exact Or.inr ha
    · subst ha; exact absurd hk.symm h2

/-- C1, at the scenario of the spec, the caller passing an attribute under the
error key as extra label: it is the only attribute under that key. -/
theorem Record_close_nil_attrs_witness :
    sampleRecorder.attributes.valid sampleWorld.heap ∧
    ((sampleRecorder.Record sampleContext "Query" [] 0 sampleWorld).1.call sampleVocabulary
        none [Key.String "db.sql.error" "retried"] 5
        (sampleRecorder.Record sampleContext "Query" [] 0 sampleWorld).2).2.calls
      = [] ++
      [SinkCall.add 2 sampleContext 1
          ([Key.String "dbSystem" "postgres"] ++ [] ++ [Key.String DBOperationKey "Query"]
            ++ [Key.String "db.sql.error" "retried"] ++ [sampleVocabulary.dbSQLStatusOK]),
        SinkCall.record 1 sampleContext (millisecondsSince 0 5)
          ([Key.String "dbSystem" "postgres"] ++ [] ++ [Key.String DBOperationKey "Query"]
            ++ [Key.String "db.sql.error" "retried"] ++ [sampleVocabulary.dbSQLStatusOK])] ∧
    sampleVocabulary.dbSQLError ≠ DBOperationKey ∧
    sampleVocabulary.dbSQLError ≠ sampleVocabulary.dbSQLStatus ∧
    Key.String "db.sql.error" "retried" ∈
      [Key.String "dbSystem" "postgres"] ++ [] ++ [Key.String "db.sql.error" "retried"] :=
  ⟨by decide,
    (Record_close_nil_attrs sampleVocabulary sampleRecorder sampleContext "Query" []
      [Key.String "db.sql.error" "retried"] 0 5
      sampleWorld (sampleRecorder.Record sampleContext "Query" [] 0 sampleWorld).2
      (by decide) rfl).1,
    by decide, by decide,
    (Record_close_nil_attrs sampleVocabulary sampleRecorder sampleContext "Query" []
      [Key.String "db.sql.error" "retried"] 0 5
      sampleWorld (sampleRecorder.Record sampleContext "Query" [] 0 sampleWorld).2
      (by decide) rfl).2.2.2.2 (by decide) (by decide)
      (Key.String "db.sql.error" "retried") (by decide) rfl⟩

/-- C2: for every non-nil error E (its message may be empty), base list B,
label list L, operation name N and extra-label list X, invoking the closer once
with E and X passes to both sinks exactly
B ++ L ++ [operation=N] ++ X ++ [status=ERROR, error=E.Error()], the error text
being E's message unchanged; and for every error argument, the attribute that
follows the extra labels is status=ERROR if and only if the argument is non-nil. -/
theorem Record_close_error_attrs (v : Vocabulary) (r : methodRecorderImpl) (ctx : Context)
    (N : String) (L X : List KeyValue) (E : GoError) (t0 t1 : Time) (w w1 : World)
    (hbase : r.attributes.valid w.heap)
    (hown : (r.Record ctx N L t0 w).2.heap.sameArray w1.heap
      (r.Record ctx N L t0 w).1.attrs.array) :
    ((r.Record ctx N L t0 w).1.call v (some E) X t1 w1).2.calls = w1.calls ++
      [SinkCall.add r.countCalls ctx 1
          (w.heap.load r.attributes ++ L ++ [Key.String DBOperationKey N] ++ X
            ++ [v.dbSQLStatusERROR, ⟨v.dbSQLError, Value.STRING E.Error⟩]),
        SinkCall.record r.recordLatency ctx (millisecondsSince t0 t1)
          (w.heap.load r.attributes ++ L ++ [Key.String DBOperationKey N] ++ X
            ++ [v.dbSQLStatusERROR, ⟨v.dbSQLError, Value.STRING E.Error⟩])] ∧
    (∀ err : Option GoError,
      ∀ sc ∈ ((r.Record ctx N L t0 w).1.call v err X t1 w1).2.calls.drop w1.calls.length,
        (sc.attrs[(w.heap.load r.attributes).length + L.length + 1 + X.length]?
            = some v.dbSQLStatusERROR ↔ err ≠ none)) := by
  obtain ⟨hval, hload, _, _, _⟩ := Record_spec r ctx N L t0 w hbase
  obtain ⟨hval1, hload1⟩ := valid_of_sameArray _ _ _ hval hown
  have hfin : ∀ err : Option GoError,
      ((r.Record ctx N L t0 w).1.call v err X t1 w1).2.heap.load
          ((r.Record ctx N L t0 w).1.call v err X t1 w1).1.attrs
        = w.heap.load r.attributes ++ L ++ [Key.String DBOperationKey N] ++ X
            ++ closer.outcome v err := by
    intro err
    rw [(closer_spec v (r.Record ctx N L t0 w).1 err X t1 w1 hval1).2.1, hload1, hload]
  constructor
  · rw [closer_calls, hfin]
    rfl
  · intro err sc hsc
    rw [closer_calls, hfin, List.drop_left] at hsc
    have hidx : (w.heap.load r.attributes).length + L.length + 1 + X.length
        = (w.heap.load r.attributes ++ L ++ [Key.String DBOperationKey N] ++ X).length := by
      simp only [List.length_append, List.length_singleton]
    have hat : sc.attrs = w.heap.load r.attributes ++ L ++ [Key.String DBOperationKey N] ++ X
        ++ closer.outcome v err := by
      simp only [List.mem_cons, List.mem_singleton, List.not_mem_nil, or_false] at hsc
      rcases hsc with h | h <;> rw [h] <;> rfl
    rw [hat, hidx, List.getElem?_append_right (Nat.le_refl _), Nat.sub_self]
    cases err with
    | none =>
      simp [closer.outcome, Vocabulary.dbSQLStatusOK, Vocabulary.dbSQLStatusERROR, Key.String]
    | some e => simp [closer.outcome]

/-- C2, at the example of the spec: "Query" on postgres fails with "connection reset". -/
theorem Record_close_error_attrs_witness :
    sampleRecorder.attributes.valid sampleWorld.heap ∧
    ((sampleRecorder.Record sampleContext "Query" [] 0 sampleWorld).1.call sampleVocabulary
        (some ⟨"connection reset"⟩) [] 5
        (sampleRecorder.Record sampleContext "Query" [] 0 sampleWorld).2).2.calls
      = [] ++
      [SinkCall.add 2 sampleContext 1
          ([Key.String "dbSystem" "postgres"] ++ [] ++ [Key.String DBOperationKey "Query"] ++ []
            ++ [sampleVocabulary.dbSQLStatusERROR,
              ⟨sampleVocabulary.dbSQLError, Value.STRING "connection reset"⟩]),
        SinkCall.record 1 sampleContext (millisecondsSince 0 5)
          ([Key.String "dbSystem" "postgres"] ++ [] ++ [Key.String DBOperationKey "Query"] ++ []
            ++ [sampleVocabulary.dbSQLStatusERROR,
              ⟨sampleVocabulary.dbSQLError, Value.STRING "connection reset"⟩])] :=
  ⟨by decide,
    (Record_close_error_attrs sampleVocabulary sampleRecorder sampleContext "Query" [] []
      ⟨"connection reset"⟩ 0 5
      sampleWorld (sampleRecorder.Record sampleContext "Query" [] 0 sampleWorld).2
      (by decide) rfl).1⟩

/-- C3: for every measurement opened by `Record(ctx, ...)` and closed once, with
any error value and any extra labels and in any world, the closer makes exactly
two sink calls: first the recorder's counter sink with the context given to
`Record` and delta 1, then the recorder's histogram sink with the same context
and the elapsed time; the log of sink calls grows by these two and nothing else. -/
theorem closer_two_sink_calls (v : Vocabulary) (r : methodRecorderImpl) (ctx : Context)
    (N : String) (L X : List KeyValue) (err : Option GoError) (t0 t1 : Time) (w w1 : World) :
    ((r.Record ctx N L t0 w).1.call v err X t1 w1).2.calls = w1.calls ++
      [SinkCall.add r.countCalls ctx 1
          (((r.Record ctx N L t0 w).1.call v err X t1 w1).2.heap.load
            ((r.Record ctx N L t0 w).1.call v err X t1 w1).1.attrs),
        SinkCall.record r.recordLatency ctx (millisecondsSince t0 t1)
          (((r.Record ctx N L t0 w).1.call v err X t1 w1).2.heap.load
            ((r.Record ctx N L t0 w).1.call v err X t1 w1).1.attrs)] ∧
    ((r.Record ctx N L t0 w).1.call v err X t1 w1).2.calls.length = w1.calls.length + 2 := by
  have h := closer_calls v (r.Record ctx N L t0 w).1 err X t1 w1
  refine ⟨h, ?_⟩
  rw [h]
  simp

/-- C4: for every measurement and every close (nil or non-nil error, any extra
labels, any world), the attribute list passed to the counter sink and the one
passed to the histogram sink by that close are the same list: same keys, same
values, same order. -/
theorem closer_same_attrs_to_both_sinks (v : Vocabulary) (r : methodRecorderImpl)
    (ctx : Context) (N : String) (L X : List KeyValue) (err : Option GoError) (t0 t1 : Time)
    (w w1 : World) :
    (((r.Record ctx N L t0 w).1.call v err X t1 w1).2.calls.drop w1.calls.length).map
        SinkCall.attrs
      = [((r.Record ctx N L t0 w).1.call v err X t1 w1).2.heap.load
            ((r.Record ctx N L t0 w).1.call v err X t1 w1).1.attrs,
          ((r.Record ctx N L t0 w).1.call v err X t1 w1).2.heap.load
            ((r.Record ctx N L t0 w).1.call v err X t1 w1).1.attrs] ∧
    (∀ s1 ∈ ((r.Record ctx N L t0 w).1.call v err X t1 w1).2.calls.drop w1.calls.length,
      ∀ s2 ∈ ((r.Record ctx N L t0 w).1.call v err X t1 w1).2.calls.drop w1.calls.length,
        s1.attrs = s2.attrs) := by
  have h := closer_calls v (r.Record ctx N L t0 w).1 err X t1 w1
  constructor
  · rw [h, List.drop_left]
    rfl
  · intro s1 h1 s2 h2
    rw [h, List.drop_left] at h1 h2
    simp only [List.mem_cons, List.mem_singleton, List.not_mem_nil, or_false] at h1 h2
    rcases h1 with h1 | h1 <;> rcases h2 with h2 | h2 <;> rw [h1, h2] <;> rfl

/-- C6: for every recorder, context, operation name and label list, `Record`
calls neither sink: the log of sink calls after `Record` is the log before it.
The first sink call of the measurement is made by the closer. -/
theorem Record_calls_no_sink (r : methodRecorderImpl) (ctx : Context) (N : String)
    (L : List KeyValue) (t0 : Time) (w : World) :
    (r.Record ctx N L t0 w).2.calls = w.calls ∧
    (∀ (v : Vocabulary) (err : Option GoError) (X : List KeyValue) (t1 : Time),
      ((r.Record ctx N L t0 w).1.call v err X t1 (r.Record ctx N L t0 w).2).2.calls.length
        = w.calls.length + 2) := by
  refine ⟨rfl, fun v err X t1 => ?_⟩
  rw [closer_calls]
  simp [methodRecorderImpl.Record]

/-- C7: for every context, query string and parameter list, `recordNoQuery`
returns the nil slice: length 0, capacity 0 and no element in any heap.  The
function is total, so it returns for every input. -/
theorem recordNoQuery_empty (ctx : Context) (query : String) (args : List NamedValue) :
    recordNoQuery ctx query args = Slice.nil ∧
    (recordNoQuery ctx query args).len = 0 ∧
    (∀ h : Heap, h.load (recordNoQuery ctx query args) = []) := by
  refine ⟨rfl, rfl, fun h => ?_⟩
  simp [recordNoQuery, Slice.nil, Heap.load]

theorem statusTags_append (v : Vocabulary) (l1 l2 : List KeyValue) :
    statusTags v (l1 ++ l2) = statusTags v l1 + statusTags v l2 := by
  simp [statusTags]

theorem statusTags_outcome (v : Vocabulary) (err : Option GoError)
    (herr : v.dbSQLStatus ≠ v.dbSQLError) : statusTags v (closer.outcome v err) = 1 := by
  cases err with
  | none => simp [closer.outcome, statusTags, Vocabulary.dbSQLStatusOK, Key.String]
  | some e =>
    simp [closer.outcome, statusTags, Vocabulary.dbSQLStatusERROR, Key.String, List.countP_cons,
      Ne.symm herr]

theorem one_le_statusTags_outcome (v : Vocabulary) (err : Option GoError) :
    1 ≤ statusTags v (closer.outcome v err) := by
  cases err with
  | none => simp [closer.outcome, statusTags, Vocabulary.dbSQLStatusOK, Key.String]
  | some e =>
    simp [closer.outcome, statusTags, Vocabulary.dbSQLStatusERROR, Key.String, List.countP_cons]

/-- The attribute list a measurement emits, in any world that left the
closure's buffer alone. -/
theorem Record_close_load (v : Vocabulary) (r : methodRecorderImpl) (ctx : Context)
    (N : String) (L X : List KeyValue) (err : Option GoError) (t0 t1 : Time) (w w1 : World)
    (hbase : r.attributes.valid w.heap)
    (hown : (r.Record ctx N L t0 w).2.heap.sameArray w1.heap
      (r.Record ctx N L t0 w).1.attrs.array) :
    ((r.Record ctx N L t0 w).1.call v err X t1 w1).2.heap.load
        ((r.Record ctx N L t0 w).1.call v err X t1 w1).1.attrs
      = w.heap.load r.attributes ++ L ++ [Key.String DBOperationKey N] ++ X
          ++ closer.outcome v err := by
  obtain ⟨hval, hload, _, _, _⟩ := Record_spec r ctx N L t0 w hbase
  obtain ⟨hval1, hload1⟩ := valid_of_sameArray _ _ _ hval hown
  rw [(closer_spec v (r.Record ctx N L t0 w).1 err X t1 w1 hval1).2.1, hload1, hload]

/-- Every attribute that survives the de-duplication is an attribute of the list. -/
theorem mem_of_mem_lastWins (a : KeyValue) (l : List KeyValue) (h : a ∈ lastWins l) :
    a ∈ l := by
  induction l with
  | nil => simp [lastWins] at h
  | cons b t ih =>
    unfold lastWins at h
    split at h
    · exact List.mem_cons_of_mem _ (ih h)
    · rcases List.mem_cons.mp h with e | e
      · exact e ▸ List.mem_cons_self _ _
      · exact List.mem_cons_of_mem _ (ih e)

/-- After the de-duplication a key that occurs in the list occurs exactly once. -/
theorem countP_lastWins (k : Key) (l : List KeyValue) (h : ∃ a ∈ l, a.key = k) :
    (lastWins l).countP (fun a => decide (a.key = k)) = 1 := by
  induction l with
  | nil => simp at h
  | cons b t ih =>
    unfold lastWins
    split
    · next hany =>
      apply ih
      obtain ⟨a, ha, hk⟩ := h
      rcases List.mem_cons.mp ha with e | e
      · obtain ⟨c, hc, hck⟩ := List.any_eq_true.mp hany
        exact ⟨c, hc, by rw [of_decide_eq_true hck, ← e, hk]⟩
      · exact ⟨a, e, hk⟩
    · next hany =>
      by_cases hb : b.key = k
      · have hnone : (lastWins t).countP (fun a => decide (a.key = k)) = 0 := by
          rw [List.countP_eq_zero]
          intro c hc hck
          apply hany
          exact List.any_eq_true.mpr
            ⟨c, mem_of_mem_lastWins c t hc, by rw [of_decide_eq_true hck, hb]; simp⟩
        rw [List.countP_cons_of_pos _ _ (by simpa using hb), hnone]
      · obtain ⟨a, ha, hk⟩ := h
        rcases List.mem_cons.mp ha with e | e
        · exact absurd (e ▸ hk) hb
        · rw [List.countP_cons_of_neg _ _ (by simpa using hb)]
          exact ih ⟨a, e, hk⟩

/-- An attribute that no later attribute of the list overwrites survives the
de-duplication. -/
theorem mem_lastWins_of_last (a : KeyValue) (p q : List KeyValue)
    (h : ∀ b ∈ q, b.key ≠ a.key) : a ∈ lastWins (p ++ a :: q) := by
  induction p with
  | nil =>
    have hany : ¬ (q.any (fun b => decide (b.key = a.key)) = true) := by
      intro hc
      obtain ⟨c, hc1, hc2⟩ := List.any_eq_true.mp hc
      exact h c hc1 (of_decide_eq_true hc2)
    simp only [List.nil_append, lastWins, hany]
    exact List.mem_cons_self _ _
  | cons c p ih =>
    rw [List.cons_append]
    unfold lastWins
    split
    · exact ih
    · exact List.mem_cons_of_mem _ ih

/-- In an attribute set a key that occurs in the list occurs exactly once. -/
theorem countP_NewSet (k : Key) (l : List KeyValue) (h : ∃ a ∈ l, a.key = k) :
    (NewSet l).countP (fun a => decide (a.key = k)) = 1 := by
  unfold NewSet
  rw [(List.perm_insertionSort KeyValue.keyLE (lastWins l)).countP_eq]
  exact countP_lastWins k l h

/-- An attribute that no later attribute of the list overwrites is in the set. -/
theorem mem_NewSet_of_last (a : KeyValue) (p q : List KeyValue)
    (h : ∀ b ∈ q, b.key ≠ a.key) : a ∈ NewSet (p ++ a :: q) := by
  unfold NewSet
  rw [(List.perm_insertionSort KeyValue.keyLE (lastWins (p ++ a :: q))).mem_iff]
  exact mem_lastWins_of_last a p q h

/-- C5: for every opened measurement (every base attribute list, label list,
extra-label list and error value) closed once, the attribute set the counter
sink and the histogram sink receive, which `metric.WithAttributes` builds from
the final list with the last value of every key, contains exactly one attribute
under the operation-name key and exactly one under the status key.  The status
tag is the one the closer appends (status=OK for a nil error; status=ERROR for
a non-nil one, when the error key is not the status key), and the operation tag
is operation=N when no extra label and neither reserved key overwrites it. -/
theorem emitted_set_one_status_tag (v : Vocabulary) (r : methodRecorderImpl) (ctx : Context)
    (N : String) (L X : List KeyValue) (err : Option GoError) (t0 t1 : Time) (w w1 : World)
    (hbase : r.attributes.valid w.heap)
    (hown : (r.Record ctx N L t0 w).2.heap.sameArray w1.heap
      (r.Record ctx N L t0 w).1.attrs.array) :
    ∀ sc ∈ ((r.Record ctx N L t0 w).1.call v err X t1 w1).2.calls.drop w1.calls.length,
      sc.attributeSet.countP (fun a => decide (a.key = DBOperationKey)) = 1 ∧
      statusTags v sc.attributeSet = 1 ∧
      (err = none → v.dbSQLStatusOK ∈ sc.attributeSet) ∧
      (err ≠ none → v.dbSQLStatus ≠ v.dbSQLError → v.dbSQLStatusERROR ∈ sc.attributeSet) ∧
      ((∀ a ∈ X, a.key ≠ DBOperationKey) → v.dbSQLStatus ≠ DBOperationKey →
        v.dbSQLError ≠ DBOperationKey → Key.String DBOperationKey N ∈ sc.attributeSet) := by
  intro sc hsc
  rw [closer_calls, Record_close_load v r ctx N L X err t0 t1 w w1 hbase hown,
    List.drop_left] at hsc
  have hat : sc.attrs = w.heap.load r.attributes ++ L ++ [Key.String DBOperationKey N] ++ X
      ++ closer.outcome v err := by
    simp only [List.mem_cons, List.mem_singleton, List.not_mem_nil, or_false] at hsc
    rcases hsc with h | h <;> rw [h] <;> rfl
  unfold SinkCall.attributeSet statusTags
  rw [hat]
  refine ⟨?_, ?_, ?_, ?_, ?_⟩
  · exact countP_NewSet _ _ ⟨Key.String DBOperationKey N, by simp, rfl⟩
  · apply countP_NewSet
    cases err with
    | none => exact ⟨v.dbSQLStatusOK, by simp [closer.outcome], rfl⟩
    | some e => exact ⟨v.dbSQLStatusERROR, by simp [closer.outcome], rfl⟩
  · intro he
    subst he
    exact mem_NewSet_of_last v.dbSQLStatusOK
      (w.heap.load r.attributes ++ L ++ [Key.String DBOperationKey N] ++ X) []
      (fun b hb => by simp at hb)
  · intro he hkey
    cases err with
    | none => exact absurd rfl he
    | some e =>
      exact mem_NewSet_of_last v.dbSQLStatusERROR
        (w.heap.load r.attributes ++ L ++ [Key.String DBOperationKey N] ++ X)
        [Key.String v.dbSQLError e.Error]
        (fun b hb => by
          rw [List.mem_singleton] at hb
          subst hb
          exact Ne.symm hkey)
  · intro hX hs he
    have hsplit : w.heap.load r.attributes ++ L ++ [Key.String DBOperationKey N] ++ X
        ++ closer.outcome v err
        = (w.heap.load r.attributes ++ L) ++ Key.String DBOperationKey N
            :: (X ++ closer.outcome v err) := by
      simp
    rw [hsplit]
    apply mem_NewSet_of_last
    intro b hb
    rcases List.mem_append.mp hb with hb | hb
    · exact hX b hb
    · cases err with
      | none =>
        simp only [closer.outcome, List.mem_singleton] at hb
        subst hb
        exact hs
      | some e =>
        simp only [closer.outcome, List.mem_cons, List.mem_singleton, List.not_mem_nil,
          or_false] at hb
        rcases hb with hb | hb
        · subst hb; exact hs
        · subst hb; exact he

/-- C5, at a measurement whose caller passes a label under the status key and
which fails with "connection reset": the set given to the counter sink keeps
one status tag, the one of the closer. -/
theorem emitted_set_one_status_tag_witness :
    sampleRecorder.attributes.valid sampleWorld.heap ∧
    statusTags sampleVocabulary
        (SinkCall.add 2 sampleContext 1
          [Key.String "dbSystem" "postgres", sampleVocabulary.dbSQLStatusOK,
            Key.String DBOperationKey "Query", sampleVocabulary.dbSQLStatusERROR,
            Key.String sampleVocabulary.dbSQLError "connection reset"]).attributeSet = 1 ∧
    sampleVocabulary.dbSQLStatus ≠ sampleVocabulary.dbSQLError ∧
    sampleVocabulary.dbSQLStatusERROR ∈
      (SinkCall.add 2 sampleContext 1
        [Key.String "dbSystem" "postgres", sampleVocabulary.dbSQLStatusOK,
          Key.String DBOperationKey "Query", sampleVocabulary.dbSQLStatusERROR,
          Key.String sampleVocabulary.dbSQLError "connection reset"]).attributeSet ∧
    (SinkCall.add 2 sampleContext 1
        [Key.String "dbSystem" "postgres", sampleVocabulary.dbSQLStatusOK,
          Key.String DBOperationKey "Query", sampleVocabulary.dbSQLStatusERROR,
          Key.String sampleVocabulary.dbSQLError "connection reset"]).attributeSet
      = [Key.String DBOperationKey "Query",
          Key.String sampleVocabulary.dbSQLError "connection reset",
          sampleVocabulary.dbSQLStatusERROR, Key.String "dbSystem" "postgres"] :=
  ⟨by decide,
    (emitted_set_one_status_tag sampleVocabulary sampleRecorder sampleContext "Query"
      [sampleVocabulary.dbSQLStatusOK] [] (some ⟨"connection reset"⟩) 0 5 sampleWorld
      (sampleRecorder.Record sampleContext "Query" [sampleVocabulary.dbSQLStatusOK] 0
        sampleWorld).2
      (by decide) rfl
      (SinkCall.add 2 sampleContext 1
        [Key.String "dbSystem" "postgres", sampleVocabulary.dbSQLStatusOK,
          Key.String DBOperationKey "Query", sampleVocabulary.dbSQLStatusERROR,
          Key.String sampleVocabulary.dbSQLError "connection reset"])
      (List.Mem.head _)).2.1,
    by decide,
    (emitted_set_one_status_tag sampleVocabulary sampleRecorder sampleContext "Query"
      [sampleVocabulary.dbSQLStatusOK] [] (some ⟨"connection reset"⟩) 0 5 sampleWorld
      (sampleRecorder.Record sampleContext "Query" [sampleVocabulary.dbSQLStatusOK] 0
        sampleWorld).2
      (by decide) rfl
      (SinkCall.add 2 sampleContext 1
        [Key.String "dbSystem" "postgres", sampleVocabulary.dbSQLStatusOK,
          Key.String DBOperationKey "Query", sampleVocabulary.dbSQLStatusERROR,
          Key.String sampleVocabulary.dbSQLError "connection reset"])
      (List.Mem.head _)).2.2.2.1 (by decide) (by decide),
    by decide⟩

/-- The header of the buffer built by `Record`, in any heap: its capacity is
`len(r.attributes) + len(labels) + 2` and it has at least two free cells less
one, the operation name being stored already. -/
theorem Record_header (r : methodRecorderImpl) (ctx : Context) (N : String)
    (L : List KeyValue) (t0 : Time) (w : World) :
    (r.Record ctx N L t0 w).1.attrs.cap = r.attributes.len + L.length + 2 ∧
    (r.Record ctx N L t0 w).1.attrs.len + 1 ≤ (r.Record ctx N L t0 w).1.attrs.cap ∧
    (r.Record ctx N L t0 w).1.attrs.array = w.heap.length := by
  have hle := length_load_le (make w.heap 0 (r.attributes.len + L.length + 2)).2 r.attributes
  have hmarr : (make w.heap 0 (r.attributes.len + L.length + 2)).1
      = ⟨w.heap.length, 0, 0, r.attributes.len + L.length + 2⟩ := rfl
  unfold methodRecorderImpl.Record
  dsimp only
  generalize make w.heap 0 (r.attributes.len + L.length + 2) = a0 at hle hmarr ⊢
  have f1 := append_fits a0.2 a0.1 (a0.2.load r.attributes) (by rw [hmarr]; dsimp only; omega)
  generalize append a0.2 a0.1 (a0.2.load r.attributes) = a1 at f1 ⊢
  have f2 := append_fits a1.2 a1.1 L (by rw [f1.1, hmarr]; dsimp only; omega)
  generalize append a1.2 a1.1 L = a2 at f2 ⊢
  have f3 := append_fits a2.2 a2.1 [Key.String DBOperationKey N]
    (by rw [f2.1, f1.1, hmarr]; simp; omega)
  generalize append a2.2 a2.1 [Key.String DBOperationKey N] = a3 at f3 ⊢
  rw [f3.1, f2.1, f1.1, hmarr]
  simp
  omega

/-- C10, as stated, fails: with no base attribute, no label and no extra label
the buffer has capacity 2, and a close with a non-nil error leaves a list of
length 3 (operation, status, error), which `append` stores in a new array. -/
theorem buffer_capacity_counterexample :
    (bareRecorder.Record sampleContext "Query" [] 0 ⟨[], []⟩).1.attrs.cap = 2 ∧
    ((bareRecorder.Record sampleContext "Query" [] 0 ⟨[], []⟩).1.call sampleVocabulary
        (some ⟨"connection reset"⟩) [] 5
        (bareRecorder.Record sampleContext "Query" [] 0 ⟨[], []⟩).2).1.attrs.len = 3 ∧
    ¬ (((bareRecorder.Record sampleContext "Query" [] 0 ⟨[], []⟩).1.call sampleVocabulary
          (some ⟨"connection reset"⟩) [] 5
          (bareRecorder.Record sampleContext "Query" [] 0 ⟨[], []⟩).2).1.attrs.len
        ≤ (bareRecorder.Record sampleContext "Query" [] 0 ⟨[], []⟩).1.attrs.cap) := by
  decide

/-- C10, amended: the buffer built by `Record` has capacity
`len(base) + len(labels) + 2`, and for every close with a nil error and no extra
label the final attribute list does not exceed that capacity: the status
attribute is written in place, in the array `Record` allocated. -/
theorem buffer_capacity_nil_close (v : Vocabulary) (r : methodRecorderImpl) (ctx : Context)
    (N : String) (L : List KeyValue) (t0 t1 : Time) (w w1 : World) :
    (r.Record ctx N L t0 w).1.attrs.cap = r.attributes.len + L.length + 2 ∧
    ((r.Record ctx N L t0 w).1.call v none [] t1 w1).1.attrs.len
      ≤ (r.Record ctx N L t0 w).1.attrs.cap ∧
    ((r.Record ctx N L t0 w).1.call v none [] t1 w1).1.attrs.array
      = (r.Record ctx N L t0 w).1.attrs.array ∧
    ((r.Record ctx N L t0 w).1.call v none [] t1 w1).2.heap.length = w1.heap.length := by
  obtain ⟨hcap, hlen, _⟩ := Record_header r ctx N L t0 w
  refine ⟨hcap, ?_⟩
  generalize (r.Record ctx N L t0 w).1 = c at hcap hlen ⊢
  have f1 := append_fits w1.heap c.attrs [] (by simp; omega)
  have f2 := append_fits (append w1.heap c.attrs []).2 (append w1.heap c.attrs []).1
    [v.dbSQLStatusOK] (by rw [f1.1]; simpa using hlen)
  have hc : (c.call v none [] t1 w1).1.attrs
      = (append (append w1.heap c.attrs []).2 (append w1.heap c.attrs []).1
          [v.dbSQLStatusOK]).1 := rfl
  have hh : (c.call v none [] t1 w1).2.heap
      = (append (append w1.heap c.attrs []).2 (append w1.heap c.attrs []).1
          [v.dbSQLStatusOK]).2 := rfl
  rw [hc, hh, f2.1, f2.2, f1.1, f1.2]
  simp
  omega

/-- A slice that existed before `Record` is left alone by it, and does not
share its array with the new buffer. -/
theorem Record_frame (r : methodRecorderImpl) (ctx : Context) (N : String)
    (L : List KeyValue) (t0 : Time) (w : World) (hbase : r.attributes.valid w.heap)
    (s : Slice) (hs : s.valid w.heap) :
    s.valid (r.Record ctx N L t0 w).2.heap ∧
    (r.Record ctx N L t0 w).2.heap.load s = w.heap.load s ∧
    s.array ≠ (r.Record ctx N L t0 w).1.attrs.array := by
  obtain ⟨_, _, harr, _, hfr⟩ := Record_spec r ctx N L t0 w hbase
  obtain ⟨h1, h2⟩ := valid_of_sameArray w.heap (r.Record ctx N L t0 w).2.heap s hs (hfr _ hs.1)
  refine ⟨h1, h2, ?_⟩
  rw [harr]
  exact Nat.ne_of_lt hs.1

/-- A slice that lives in another array than the closure's buffer is left alone
by the closer, and does not share its array with the buffer afterwards. -/
theorem closer_frame (v : Vocabulary) (c : closer) (err : Option GoError)
    (X : List KeyValue) (t1 : Time) (w : World) (hv : c.attrs.valid w.heap)
    (s : Slice) (hs : s.valid w.heap) (hne : s.array ≠ c.attrs.array) :
    s.valid (c.call v err X t1 w).2.heap ∧
    (c.call v err X t1 w).2.heap.load s = w.heap.load s ∧
    s.array ≠ (c.call v err X t1 w).1.attrs.array := by
  obtain ⟨_, _, _, harr, hfr, _⟩ := closer_spec v c err X t1 w hv
  obtain ⟨h1, h2⟩ := valid_of_sameArray w.heap (c.call v err X t1 w).2.heap s hs
    (hfr _ hs.1 hne)
  refine ⟨h1, h2, ?_⟩
  have := hs.1
  rcases harr with e | e
  · rw [e]; exact hne
  · omega

/-- C9: invoking the same closer twice, first with (e1, X1) and then with
(e2, X2), makes the sink calls count(1, A1), latency(A1), count(1, A2),
latency(A2), where A1 = B ++ L ++ [operation=N] ++ X1 ++ outcome(e1) is the list
of the first close and A2 = A1 ++ X2 ++ outcome(e2): the second close appends to
what the first one left.  The outcome of a nil error is [status=OK], that of a
non-nil error is [status=ERROR, error=message]; so A2 has at least two status
tags, and exactly two more than the caller supplied when the status key is
neither the operation key nor the error key. -/
theorem closer_twice_accumulates (v : Vocabulary) (r : methodRecorderImpl) (ctx : Context)
    (N : String) (L X1 X2 : List KeyValue) (e1 e2 : Option GoError) (t0 t1 t2 : Time)
    (w w1 : World) (hbase : r.attributes.valid w.heap)
    (hown : (r.Record ctx N L t0 w).2.heap.sameArray w1.heap
      (r.Record ctx N L t0 w).1.attrs.array) :
    (((r.Record ctx N L t0 w).1.call v e1 X1 t1 w1).1.call v e2 X2 t2
        ((r.Record ctx N L t0 w).1.call v e1 X1 t1 w1).2).2.calls = w1.calls ++
      [SinkCall.add r.countCalls ctx 1
          (w.heap.load r.attributes ++ L ++ [Key.String DBOperationKey N] ++ X1
            ++ closer.outcome v e1),
        SinkCall.record r.recordLatency ctx (millisecondsSince t0 t1)
          (w.heap.load r.attributes ++ L ++ [Key.String DBOperationKey N] ++ X1
            ++ closer.outcome v e1),
        SinkCall.add r.countCalls ctx 1
          (w.heap.load r.attributes ++ L ++ [Key.String DBOperationKey N] ++ X1
            ++ closer.outcome v e1 ++ X2 ++ closer.outcome v e2),
        SinkCall.record r.recordLatency ctx (millisecondsSince t0 t2)
          (w.heap.load r.attributes ++ L ++ [Key.String DBOperationKey N] ++ X1
            ++ closer.outcome v e1 ++ X2 ++ closer.outcome v e2)] ∧
    closer.outcome v none = [v.dbSQLStatusOK] ∧
    (∀ E : GoError, closer.outcome v (some E)
      = [v.dbSQLStatusERROR, ⟨v.dbSQLError, Value.STRING E.Error⟩]) ∧
    2 ≤ statusTags v (w.heap.load r.attributes ++ L ++ [Key.String DBOperationKey N] ++ X1
            ++ closer.outcome v e1 ++ X2 ++ closer.outcome v e2) ∧
    (v.dbSQLStatus ≠ DBOperationKey → v.dbSQLStatus ≠ v.dbSQLError →
      statusTags v (w.heap.load r.attributes ++ L ++ [Key.String DBOperationKey N] ++ X1
            ++ closer.outcome v e1 ++ X2 ++ closer.outcome v e2)
        = statusTags v (w.heap.load r.attributes ++ L ++ X1 ++ X2) + 2) := by
  obtain ⟨hval, hload, _, _, _⟩ := Record_spec r ctx N L t0 w hbase
  obtain ⟨hval1, hload1⟩ := valid_of_sameArray _ _ _ hval hown
  obtain ⟨hvalp, hloadp, _, _, _, _, _, _⟩ :=
    closer_spec v (r.Record ctx N L t0 w).1 e1 X1 t1 w1 hval1
  obtain ⟨_, hloadq, _⟩ :=
    closer_spec v ((r.Record ctx N L t0 w).1.call v e1 X1 t1 w1).1 e2 X2 t2
      ((r.Record ctx N L t0 w).1.call v e1 X1 t1 w1).2 hvalp
  refine ⟨?_, rfl, fun _ => rfl, ?_, ?_⟩
  · rw [closer_calls, hloadq, closer_calls, hloadp, hload1, hload, List.append_assoc]
    rfl
  · have a1 := one_le_statusTags_outcome v e1
    have a2 := one_le_statusTags_outcome v e2
    simp only [statusTags_append]
    omega
  · intro hop herr
    have hN : statusTags v [Key.String DBOperationKey N] = 0 := by
      simp [statusTags, Key.String, Ne.symm hop]
    simp only [statusTags_append, statusTags_outcome v _ herr, hN]
    omega

/-- C9, at the scenario of the spec: the closer is invoked with a nil error and
then again with "connection reset"; the second list has two status tags. -/
theorem closer_twice_accumulates_witness :
    sampleRecorder.attributes.valid sampleWorld.heap ∧
    (((sampleRecorder.Record sampleContext "Query" [] 0 sampleWorld).1.call sampleVocabulary
        none [] 5 (sampleRecorder.Record sampleContext "Query" [] 0 sampleWorld).2).1.call
        sampleVocabulary (some ⟨"connection reset"⟩) [] 9
        ((sampleRecorder.Record sampleContext "Query" [] 0 sampleWorld).1.call sampleVocabulary
          none [] 5 (sampleRecorder.Record sampleContext "Query" [] 0 sampleWorld).2).2).2.calls
      = [] ++
      [SinkCall.add 2 sampleContext 1
          ([Key.String "dbSystem" "postgres"] ++ [] ++ [Key.String DBOperationKey "Query"] ++ []
            ++ closer.outcome sampleVocabulary none),
        SinkCall.record 1 sampleContext (millisecondsSince 0 5)
          ([Key.String "dbSystem" "postgres"] ++ [] ++ [Key.String DBOperationKey "Query"] ++ []
            ++ closer.outcome sampleVocabulary none),
        SinkCall.add 2 sampleContext 1
          ([Key.String "dbSystem" "postgres"] ++ [] ++ [Key.String DBOperationKey "Query"] ++ []
            ++ closer.outcome sampleVocabulary none ++ []
            ++ closer.outcome sampleVocabulary (some ⟨"connection reset"⟩)),
        SinkCall.record 1 sampleContext (millisecondsSince 0 9)
          ([Key.String "dbSystem" "postgres"] ++ [] ++ [Key.String DBOperationKey "Query"] ++ []
            ++ closer.outcome sampleVocabulary none ++ []
            ++ closer.outcome sampleVocabulary (some ⟨"connection reset"⟩))] ∧
    sampleVocabulary.dbSQLStatus ≠ DBOperationKey ∧
    sampleVocabulary.dbSQLStatus ≠ sampleVocabulary.dbSQLError ∧
    statusTags sampleVocabulary
        ([Key.String "dbSystem" "postgres"] ++ [] ++ [Key.String DBOperationKey "Query"] ++ []
          ++ closer.outcome sampleVocabulary none ++ []
          ++ closer.outcome sampleVocabulary (some ⟨"connection reset"⟩))
      = statusTags sampleVocabulary ([Key.String "dbSystem" "postgres"] ++ [] ++ [] ++ []) + 2 :=
  ⟨by decide,
    (closer_twice_accumulates sampleVocabulary sampleRecorder sampleContext "Query" [] [] []
      none (some ⟨"connection reset"⟩) 0 5 9 sampleWorld
      (sampleRecorder.Record sampleContext "Query" [] 0 sampleWorld).2 (by decide) rfl).1,
    by decide, by decide,
    (closer_twice_accumulates sampleVocabulary sampleRecorder sampleContext "Query" [] [] []
      none (some ⟨"connection reset"⟩) 0 5 9 sampleWorld
      (sampleRecorder.Record sampleContext "Query" [] 0 sampleWorld).2
      (by decide) rfl).2.2.2.2 (by decide) (by decide)⟩

/-- Two measurements on one recorder, closed in the order they were opened. -/
theorem measureBothInOrder_spec (v : Vocabulary) (r : methodRecorderImpl)
    (m1 m2 : Measurement) (w : World) (hbase : r.attributes.valid w.heap) :
    (measureBothInOrder v r m1 m2 w).calls
      = w.calls ++ m1.specCalls v r (w.heap.load r.attributes)
          ++ m2.specCalls v r (w.heap.load r.attributes) ∧
    (measureBothInOrder v r m1 m2 w).heap.load r.attributes = w.heap.load r.attributes := by
  unfold measureBothInOrder
  dsimp only
  obtain ⟨hv1, hl1, _, _, _⟩ := Record_spec r m1.ctx m1.method m1.labels m1.opened w hbase
  obtain ⟨hb1, hbl1, hbn1⟩ :=
    Record_frame r m1.ctx m1.method m1.labels m1.opened w hbase r.attributes hbase
  set o1 := r.Record m1.ctx m1.method m1.labels m1.opened w with ho1
  obtain ⟨hv2, hl2, _, _, _⟩ := Record_spec r m2.ctx m2.method m2.labels m2.opened o1.2 hb1
  obtain ⟨hb2, hbl2, hbn2⟩ :=
    Record_frame r m2.ctx m2.method m2.labels m2.opened o1.2 hb1 r.attributes hb1
  obtain ⟨hv12, hl12, hne12⟩ :=
    Record_frame r m2.ctx m2.method m2.labels m2.opened o1.2 hb1 o1.1.attrs hv1
  set o2 := r.Record m2.ctx m2.method m2.labels m2.opened o1.2 with ho2
  -- closing the first: the second buffer and the base slice are left alone
  obtain ⟨_, hlp, _⟩ := closer_spec v o1.1 m1.err m1.extra m1.closed o2.2 hv12
  obtain ⟨hv2p, hl2p, _⟩ :=
    closer_frame v o1.1 m1.err m1.extra m1.closed o2.2 hv12 o2.1.attrs hv2 (Ne.symm hne12)
  obtain ⟨hbp, hblp, _⟩ :=
    closer_frame v o1.1 m1.err m1.extra m1.closed o2.2 hv12 r.attributes hb2 hbn1
  set p := o1.1.call v m1.err m1.extra m1.closed o2.2 with hp
  -- closing the second
  obtain ⟨_, hlq, _⟩ := closer_spec v o2.1 m2.err m2.extra m2.closed p.2 hv2p
  obtain ⟨_, hblq, _⟩ :=
    closer_frame v o2.1 m2.err m2.extra m2.closed p.2 hv2p r.attributes hbp hbn2
  constructor
  · rw [closer_calls, hlq, hl2p, hl2, hbl1, hp, closer_calls, ← hp, hlp, hl12, hl1]
    simp only [Measurement.specCalls, Measurement.specAttrs, List.append_assoc]
    rfl
  · rw [hblq, hblp, hbl2, hbl1]

/-- Two measurements on one recorder, the one opened last closed first. -/
theorem measureBothReversed_spec (v : Vocabulary) (r : methodRecorderImpl)
    (m1 m2 : Measurement) (w : World) (hbase : r.attributes.valid w.heap) :
    (measureBothReversed v r m1 m2 w).calls
      = w.calls ++ m2.specCalls v r (w.heap.load r.attributes)
          ++ m1.specCalls v r (w.heap.load r.attributes) ∧
    (measureBothReversed v r m1 m2 w).heap.load r.attributes = w.heap.load r.attributes := by
  unfold measureBothReversed
  dsimp only
  obtain ⟨hv1, hl1, _, _, _⟩ := Record_spec r m1.ctx m1.method m1.labels m1.opened w hbase
  obtain ⟨hb1, hbl1, hbn1⟩ :=
    Record_frame r m1.ctx m1.method m1.labels m1.opened w hbase r.attributes hbase
  set o1 := r.Record m1.ctx m1.method m1.labels m1.opened w with ho1
  obtain ⟨hv2, hl2, _, _, _⟩ := Record_spec r m2.ctx m2.method m2.labels m2.opened o1.2 hb1
  obtain ⟨hb2, hbl2, hbn2⟩ :=
    Record_frame r m2.ctx m2.method m2.labels m2.opened o1.2 hb1 r.attributes hb1
  obtain ⟨hv12, hl12, hne12⟩ :=
    Record_frame r m2.ctx m2.method m2.labels m2.opened o1.2 hb1 o1.1.attrs hv1
  set o2 := r.Record m2.ctx m2.method m2.labels m2.opened o1.2 with ho2
  -- closing the second: the first buffer and the base slice are left alone
  obtain ⟨_, hlp, _⟩ := closer_spec v o2.1 m2.err m2.extra m2.closed o2.2 hv2
  obtain ⟨hv1p, hl1p, _⟩ :=
    closer_frame v o2.1 m2.err m2.extra m2.closed o2.2 hv2 o1.1.attrs hv12 hne12
  obtain ⟨hbp, hblp, _⟩ :=
    closer_frame v o2.1 m2.err m2.extra m2.closed o2.2 hv2 r.attributes hb2 hbn2
  set p := o2.1.call v m2.err m2.extra m2.closed o2.2 with hp
  -- closing the first
  obtain ⟨_, hlq, _⟩ := closer_spec v o1.1 m1.err m1.extra m1.closed p.2 hv1p
  obtain ⟨_, hblq, _⟩ :=
    closer_frame v o1.1 m1.err m1.extra m1.closed p.2 hv1p r.attributes hbp hbn1
  constructor
  · rw [closer_calls, hlq, hl1p, hl12, hl1, hp, closer_calls, ← hp, hlp, hl2, hbl1]
    simp only [Measurement.specCalls, Measurement.specAttrs, List.append_assoc]
    rfl
  · rw [hblq, hblp, hbl2, hbl1]

/-- Two measurements on one recorder, the second opened after the first is closed. -/
theorem measureInSequence_spec (v : Vocabulary) (r : methodRecorderImpl)
    (m1 m2 : Measurement) (w : World) (hbase : r.attributes.valid w.heap) :
    (measureInSequence v r m1 m2 w).calls
      = w.calls ++ m1.specCalls v r (w.heap.load r.attributes)
          ++ m2.specCalls v r (w.heap.load r.attributes) ∧
    (measureInSequence v r m1 m2 w).heap.load r.attributes = w.heap.load r.attributes := by
  unfold measureInSequence
  dsimp only
  obtain ⟨hv1, hl1, _, _, _⟩ := Record_spec r m1.ctx m1.method m1.labels m1.opened w hbase
  obtain ⟨hb1, hbl1, hbn1⟩ :=
    Record_frame r m1.ctx m1.method m1.labels m1.opened w hbase r.attributes hbase
  set o1 := r.Record m1.ctx m1.method m1.labels m1.opened w with ho1
  obtain ⟨_, hlp, _⟩ := closer_spec v o1.1 m1.err m1.extra m1.closed o1.2 hv1
  obtain ⟨hbp, hblp, _⟩ :=
    closer_frame v o1.1 m1.err m1.extra m1.closed o1.2 hv1 r.attributes hb1 hbn1
  set p := o1.1.call v m1.err m1.extra m1.closed o1.2 with hp
  obtain ⟨hv2, hl2, _, _, _⟩ := Record_spec r m2.ctx m2.method m2.labels m2.opened p.2 hbp
  obtain ⟨hb2, hbl2, hbn2⟩ :=
    Record_frame r m2.ctx m2.method m2.labels m2.opened p.2 hbp r.attributes hbp
  set o2 := r.Record m2.ctx m2.method m2.labels m2.opened p.2 with ho2
  obtain ⟨_, hlq, _⟩ := closer_spec v o2.1 m2.err m2.extra m2.closed o2.2 hv2
  obtain ⟨_, hblq, _⟩ :=
    closer_frame v o2.1 m2.err m2.extra m2.closed o2.2 hv2 r.attributes hb2 hbn2
  have hc2 : o2.2.calls = p.2.calls := rfl
  constructor
  · rw [closer_calls, hlq, hl2, hblp, hbl1, hc2, hp, closer_calls, ← hp, hlp, hl1]
    simp only [Measurement.specCalls, Measurement.specAttrs, List.append_assoc]
    rfl
  · rw [hblq, hbl2, hblp, hbl1]

/-- One measurement on its own. -/
theorem measureAlone_spec (v : Vocabulary) (r : methodRecorderImpl) (m : Measurement)
    (w : World) (hbase : r.attributes.valid w.heap) :
    (measureAlone v r m w).calls = w.calls ++ m.specCalls v r (w.heap.load r.attributes) := by
  have h := Record_close_load v r m.ctx m.method m.labels m.extra m.err m.opened m.closed w
    (r.Record m.ctx m.method m.labels m.opened w).2 hbase rfl
  unfold measureAlone
  dsimp only
  rw [closer_calls, h]
  rfl

/-- C8: for every recorder and every two measurements opened from it and closed
once each (same or different operation names, labels and outcomes), whether
the first opened is closed first, or last, or before the second is opened: each
close makes its own counter call with delta 1 followed by its histogram call;
the attribute list of each is B ++ labels ++ [operation] ++ extra ++ outcome of
that measurement alone, which is what the measurement emits when it is the
recorder's only one; and the recorder's base slice holds the same attributes
afterwards as before. -/
theorem two_measurements_independent (v : Vocabulary) (r : methodRecorderImpl)
    (m1 m2 : Measurement) (w : World) (hbase : r.attributes.valid w.heap) :
    (measureBothInOrder v r m1 m2 w).calls
      = w.calls ++ m1.specCalls v r (w.heap.load r.attributes)
          ++ m2.specCalls v r (w.heap.load r.attributes) ∧
    (measureBothReversed v r m1 m2 w).calls
      = w.calls ++ m2.specCalls v r (w.heap.load r.attributes)
          ++ m1.specCalls v r (w.heap.load r.attributes) ∧
    (measureInSequence v r m1 m2 w).calls
      = w.calls ++ m1.specCalls v r (w.heap.load r.attributes)
          ++ m2.specCalls v r (w.heap.load r.attributes) ∧
    (measureAlone v r m1 w).calls = w.calls ++ m1.specCalls v r (w.heap.load r.attributes) ∧
    (measureAlone v r m2 w).calls = w.calls ++ m2.specCalls v r (w.heap.load r.attributes) ∧
    (measureBothInOrder v r m1 m2 w).heap.load r.attributes = w.heap.load r.attributes ∧
    (measureBothReversed v r m1 m2 w).heap.load r.attributes = w.heap.load r.attributes ∧
    (measureInSequence v r m1 m2 w).heap.load r.attributes = w.heap.load r.attributes ∧
    (∀ m : Measurement, ∀ sc ∈ m.specCalls v r (w.heap.load r.attributes),
      sc.attrs = w.heap.load r.attributes ++ m.labels ++ [Key.String DBOperationKey m.method]
        ++ m.extra ++ closer.outcome v m.err ∧
      ∀ f ctx n a, sc = SinkCall.add f ctx n a → n = 1) := by
  refine ⟨(measureBothInOrder_spec v r m1 m2 w hbase).1,
    (measureBothReversed_spec v r m1 m2 w hbase).1,
    (measureInSequence_spec v r m1 m2 w hbase).1,
    measureAlone_spec v r m1 w hbase, measureAlone_spec v r m2 w hbase,
    (measureBothInOrder_spec v r m1 m2 w hbase).2,
    (measureBothReversed_spec v r m1 m2 w hbase).2,
    (measureInSequence_spec v r m1 m2 w hbase).2, ?_⟩
  intro m sc hsc
  simp only [Measurement.specCalls, List.mem_cons, List.mem_singleton, List.not_mem_nil,
    or_false] at hsc
  rcases hsc with h | h
  · subst h
    refine ⟨rfl, ?_⟩
    intro f ctx n a hsc
    cases hsc
    rfl
  · subst h
    refine ⟨rfl, ?_⟩
    intro f ctx n a hsc
    cases hsc

/-- C8, at the example of the spec: the same operation, once succeeding and
once failing, on the sample recorder. -/
theorem two_measurements_independent_witness :
    sampleRecorder.attributes.valid sampleWorld.heap ∧
    (measureBothInOrder sampleVocabulary sampleRecorder sampleQueryOK sampleQueryFailed
        sampleWorld).calls
      = sampleWorld.calls
          ++ sampleQueryOK.specCalls sampleVocabulary sampleRecorder
              (sampleWorld.heap.load sampleRecorder.attributes)
          ++ sampleQueryFailed.specCalls sampleVocabulary sampleRecorder
              (sampleWorld.heap.load sampleRecorder.attributes) :=
  ⟨by decide,
    (two_measurements_independent sampleVocabulary sampleRecorder sampleQueryOK
      sampleQueryFailed sampleWorld (by decide)).1⟩

end otelsql
